import Mathlib

/-!
Verification of the tinyraytracer core (src/main.rs, src/vector.rs).

Floating-point values (`f32`) are modelled as real numbers; `f32::sqrt`,
`f32::tan` and `f32::powf` become `Real.sqrt`, `Real.tan` and `Real.rpow`.
The definitions below are transcribed from the Rust source; a handful of
vector-primitive items that `main.rs` uses but that are absent from the
`src/vector.rs` snapshot (the `Vec2f` type and vector negation) are modelled
from the specification and marked as such in their doc comments.
-/

/-- `Vec3f` from src/vector.rs: a 3-component vector of floats,
modelled with real components. The Rust tuple fields `.0 .1 .2`
become `x y z`. -/
@[ext]
structure Vec3f where
  x : ℝ
  y : ℝ
  z : ℝ

/-- `Vec3f::new` from src/vector.rs. -/
def Vec3f.new (x y z : ℝ) : Vec3f := ⟨x, y, z⟩

/-- `Vec3f::norm` from src/vector.rs: the sum of squared components. -/
def Vec3f.norm (v : Vec3f) : ℝ := v.x * v.x + v.y * v.y + v.z * v.z

/-- `Vec3f::len` from src/vector.rs: the square root of `norm`. -/
noncomputable def Vec3f.len (v : Vec3f) : ℝ := Real.sqrt v.norm

/-- `Vec3f::normalize` from src/vector.rs: each component is multiplied by
the reciprocal of the length. -/
noncomputable def Vec3f.normalize (v : Vec3f) : Vec3f :=
  ⟨v.x * v.len⁻¹, v.y * v.len⁻¹, v.z * v.len⁻¹⟩

/-- `Vec3f::dot` from src/vector.rs. -/
def Vec3f.dot (v w : Vec3f) : ℝ := v.x * w.x + v.y * w.y + v.z * w.z

/-- `impl Add for Vec3f` from src/vector.rs: componentwise addition. -/
instance : Add Vec3f := ⟨fun v w => ⟨v.x + w.x, v.y + w.y, v.z + w.z⟩⟩

/-- `impl Sub for Vec3f` from src/vector.rs: componentwise subtraction. -/
instance : Sub Vec3f := ⟨fun v w => ⟨v.x - w.x, v.y - w.y, v.z - w.z⟩⟩

/-- `impl Mul for Vec3f` from src/vector.rs: componentwise (Hadamard)
multiplication. -/
instance : Mul Vec3f := ⟨fun v w => ⟨v.x * w.x, v.y * w.y, v.z * w.z⟩⟩

/-- `impl Mul<f32> for Vec3f` from src/vector.rs: scaling by a scalar. -/
instance : HMul Vec3f ℝ Vec3f := ⟨fun v a => ⟨v.x * a, v.y * a, v.z * a⟩⟩

/-- Modelled from the spec: `main.rs` negates vectors (`-light_dir`,
`-reflect(..)`) but the `src/vector.rs` snapshot has no `Neg`
implementation; the vector primitive is specified as a componentwise
value type, so negation is componentwise. -/
instance : Neg Vec3f := ⟨fun v => ⟨-v.x, -v.y, -v.z⟩⟩

theorem Vec3f.add_def (v w : Vec3f) : v + w = ⟨v.x + w.x, v.y + w.y, v.z + w.z⟩ := rfl

theorem Vec3f.sub_def (v w : Vec3f) : v - w = ⟨v.x - w.x, v.y - w.y, v.z - w.z⟩ := rfl

theorem Vec3f.mul_def (v w : Vec3f) : v * w = ⟨v.x * w.x, v.y * w.y, v.z * w.z⟩ := rfl

theorem Vec3f.smul_def (v : Vec3f) (a : ℝ) : v * a = ⟨v.x * a, v.y * a, v.z * a⟩ := rfl

theorem Vec3f.neg_def (v : Vec3f) : -v = ⟨-v.x, -v.y, -v.z⟩ := rfl

/-- Modelled from the spec: `Vec2f`, used by `main.rs` for the material
albedo and absent from the `src/vector.rs` snapshot; the spec describes the
albedo as a "pair of floats (diffuse_weight, specular_weight)" accessed by
position, so it is a plain pair of reals. -/
abbrev Vec2f : Type := ℝ × ℝ

/-- `Material` from src/main.rs. -/
structure Material where
  diffuse_color : Vec3f
  albedo : Vec2f
  specular_exponent : ℝ

/-- `Light` from src/main.rs. -/
structure Light where
  position : Vec3f
  intensity : ℝ

/-- `Sphere` from src/main.rs. -/
structure Sphere where
  center : Vec3f
  radius : ℝ
  material : Material

/-- `Sphere::ray_intersect` from src/main.rs (lines 54-75), transcribed
branch for branch. -/
noncomputable def Sphere.ray_intersect (s : Sphere) (orig dir : Vec3f) : Option ℝ :=
  let l := s.center - orig
  let tca := l.dot dir
  let d2 := l.dot l - tca * tca
  let radius2 := s.radius * s.radius
  if d2 > radius2 then
    none
  else
    let thc := Real.sqrt (radius2 - d2)
    let t0 := tca - thc
    let t1 := tca + thc
    if t0 < 0 ∧ t1 < 0 then
      none
    else if t0 < 0 then
      some t1
    else if t1 < 0 then
      some t0
    else
      some (if t0 < t1 then t0 else t1)

/-- `reflect` from src/main.rs (lines 78-80). Note that the Rust source
multiplies throughout: `*light_dir * (*n * 2.0 * (*light_dir * *n))`, where
`Vec3f * Vec3f` is componentwise multiplication, so this is NOT the standard
mirror-reflection formula. -/
def reflect (light_dir n : Vec3f) : Vec3f :=
  light_dir * (n * (2 : ℝ) * (light_dir * n))

/-- The specification's reflection formula (§4.3): `v − n × 2 × (v·n)`,
the standard mirror reflection of `v` about the normal `n`. Stated here
only to compare the source's `reflect` against it. -/
def reflect_formula (v n : Vec3f) : Vec3f :=
  v - n * (2 * v.dot n)

/-- The reduction step underlying Rust's `Iterator::min_by_key`: keep the
current minimum unless the new element's key is strictly smaller. -/
def foldlMin {α : Type} (key : α → ℕ) (a : α) (l : List α) : α :=
  l.foldl (fun acc x => if key x < key acc then x else acc) a

/-- Rust's `Iterator::min_by_key`: the element with the minimum key;
when several elements are equally minimal, the first one is returned. -/
def minByKey {α : Type} (key : α → ℕ) : List α → Option α
  | [] => none
  | a :: l => some (foldlMin key a l)

/-- The candidate list built inside `scene_intersect` (src/main.rs lines
88-95): the spheres are scanned in scene order and each sphere reporting an
intersection contributes its `(distance, sphere)` pair. -/
noncomputable def sceneCandidates (orig dir : Vec3f) (spheres : List Sphere) :
    List (ℝ × Sphere) :=
  spheres.filterMap fun sphere =>
    match sphere.ray_intersect orig dir with
    | some distance => some (distance, sphere)
    | none => none

/-- The key used by `min_by_key` in src/main.rs line 96: the distance cast
`as u32`, i.e. truncated to an integer (saturating at 0 from below, which is
exactly `Nat.floor` on the reals). -/
noncomputable def distanceKey (p : ℝ × Sphere) : ℕ := ⌊p.1⌋₊

/-- `scene_intersect` from src/main.rs (lines 82-106): picks the candidate
with minimal truncated distance and computes the hit point and outward
normal there. Returns `(sphere, n, hit)`. -/
noncomputable def scene_intersect (orig dir : Vec3f) (spheres : List Sphere) :
    Option (Sphere × Vec3f × Vec3f) :=
  match minByKey distanceKey (sceneCandidates orig dir spheres) with
  | some (distance, sphere) =>
      let hit := orig + dir * distance
      let n := (hit - sphere.center).normalize
      some (sphere, n, hit)
  | none => none

/-- One iteration of the light loop in `cast_ray` (src/main.rs lines
113-121), acting on the accumulator pair
`(diffuse_light_intensity, specular_light_intensity)`. -/
noncomputable def phongStep (n hit dir : Vec3f) (specular_exponent : ℝ)
    (acc : ℝ × ℝ) (light : Light) : ℝ × ℝ :=
  let light_dir := (light.position - hit).normalize
  (acc.1 + light.intensity * max 0 (light_dir.dot n),
   acc.2 + max 0 ((-reflect (-light_dir) n).dot dir) ^ specular_exponent
     * light.intensity)

/-- The light loop of `cast_ray`: fold `phongStep` over the lights starting
from `(0, 0)`. -/
noncomputable def phongAccum (n hit dir : Vec3f) (specular_exponent : ℝ)
    (lights : List Light) : ℝ × ℝ :=
  lights.foldl (phongStep n hit dir specular_exponent) (0, 0)

/-- `cast_ray` from src/main.rs (lines 108-132): on a hit, Phong
accumulation over the lights followed by the final colour combination; on a
miss, the fixed background colour. -/
noncomputable def cast_ray (orig dir : Vec3f) (spheres : List Sphere)
    (lights : List Light) : Vec3f :=
  match scene_intersect orig dir spheres with
  | some (sphere, n, hit) =>
      let acc := phongAccum n hit dir sphere.material.specular_exponent lights
      let material := sphere.material
      material.diffuse_color * acc.1 * material.albedo.1
        + Vec3f.new 1 1 1 * (acc.2 * material.albedo.2)
  | none => Vec3f.new 0.2 0.7 0.8

/-- `WIDTH` from src/main.rs line 135. -/
def WIDTH : ℕ := 1024

/-- `HEIGHT` from src/main.rs line 136. -/
def HEIGHT : ℕ := 768

/-- `FOV` from src/main.rs line 137. -/
noncomputable def FOV : ℝ := Real.pi / 2

/-- The primary ray direction computed for pixel `(i, j)` in the frame loop
of `render` (src/main.rs lines 144-148). -/
noncomputable def pixelDir (i j : ℕ) : Vec3f :=
  let x := (2 * ((i : ℝ) + 0.5) / (WIDTH : ℝ) - 1) * Real.tan (FOV / 2)
    * (WIDTH : ℝ) / (HEIGHT : ℝ)
  let y := -(2 * ((j : ℝ) + 0.5) / (HEIGHT : ℝ) - 1) * Real.tan (FOV / 2)
  (Vec3f.new x y (-1)).normalize

/-- The framebuffer computed by the frame loop of `render` (src/main.rs
lines 140-152): start from `vec![Vec3f::new(0.,0.,0.); WIDTH * HEIGHT]` and,
for `j` in `0..HEIGHT` and `i` in `0..WIDTH`, write the colour of pixel
`(i, j)` at index `i + j * WIDTH`. -/
noncomputable def renderFramebuffer (spheres : List Sphere) (lights : List Light) :
    List Vec3f :=
  (List.range HEIGHT).foldl
    (fun fb j =>
      (List.range WIDTH).foldl
        (fun fb i =>
          fb.set (i + j * WIDTH)
            (cast_ray (Vec3f.new 0 0 0) (pixelDir i j) spheres lights))
        fb)
    (List.replicate (WIDTH * HEIGHT) (Vec3f.new 0 0 0))

/-- One output channel of the encoder in `render` (src/main.rs line 167):
`(255.0 * 0.0f32.max(1.0f32.min(z))) as u8` — clamp to `[0,1]`, scale by
255, truncate to an integer (the `as u8` cast saturates at 255, hence the
outer `min`). -/
noncomputable def encodeChannel (z : ℝ) : ℕ :=
  min ⌊255 * max 0 (min 1 z)⌋₊ 255

/-- The three bytes the encoder writes for one framebuffer entry
(src/main.rs lines 159-169). -/
noncomputable def encodePixel (v : Vec3f) : ℕ × ℕ × ℕ :=
  (encodeChannel v.x, encodeChannel v.y, encodeChannel v.z)

/-- The shading formula as the specification states it (§4.3): per-light
sums of diffuse and specular contributions, combined as
`diffuse_color × diffuse × diffuse_weight + white × specular × specular_weight`.
This follows the spec sentence for sentence, to be compared with `cast_ray`. -/
noncomputable def shade_formula (dir : Vec3f) (material : Material)
    (n hit : Vec3f) (lights : List Light) : Vec3f :=
  let diffuse := (lights.map fun light =>
    light.intensity * max 0 (((light.position - hit).normalize).dot n)).sum
  let specular := (lights.map fun light =>
    light.intensity * max 0 ((-reflect (-(light.position - hit).normalize) n).dot dir)
      ^ material.specular_exponent).sum
  material.diffuse_color * diffuse * material.albedo.1
    + Vec3f.new 1 1 1 * specular * material.albedo.2

/-! ### Concrete example data, used by witnesses -/

/-- The `ivory` material of src/main.rs line 176. -/
def exMaterial : Material := ⟨Vec3f.new 0.4 0.4 0.3, (0.6, 0.3), 50⟩

/-- A unit sphere straight ahead of the example ray at depth 4. -/
def exSphere : Sphere := ⟨Vec3f.new 0 0 4, 1, exMaterial⟩

/-- A unit sphere half a unit behind `exSphere`; its hit distance 3.5
truncates to the same integer as `exSphere`'s distance 3. -/
def exSphere2 : Sphere := ⟨Vec3f.new 0 0 4.5, 1, exMaterial⟩

/-- Example ray origin `(0,0,0)`. -/
def exOrig : Vec3f := Vec3f.new 0 0 0

/-- Example unit ray direction `(0,0,1)`. -/
def exDir : Vec3f := Vec3f.new 0 0 1

/-- The first scene light of src/main.rs line 186. -/
def exLight1 : Light := ⟨Vec3f.new (-20) 20 20, 1.5⟩

/-- The second scene light of src/main.rs line 187. -/
def exLight2 : Light := ⟨Vec3f.new 30 50 (-25), 1.8⟩

lemma exSphere_ray_intersect :
    exSphere.ray_intersect exOrig exDir = some 3 := by
  have h1 : Real.sqrt ((1 : ℝ) * 1 - ((0 - 0) * (0 - 0) + (0 - 0) * (0 - 0)
      + (4 - 0) * (4 - 0) - ((0 - 0) * 0 + (0 - 0) * 0 + (4 - 0) * 1)
      * ((0 - 0) * 0 + (0 - 0) * 0 + (4 - 0) * 1))) = 1 := by
    norm_num
  simp only [Sphere.ray_intersect, exSphere, exMaterial, exOrig, exDir,
    Vec3f.new, Vec3f.sub_def, Vec3f.dot, h1]
  norm_num

lemma exSphere2_ray_intersect :
    exSphere2.ray_intersect exOrig exDir = some 3.5 := by
  have h1 : Real.sqrt ((1 : ℝ) * 1 - ((0 - 0) * (0 - 0) + (0 - 0) * (0 - 0)
      + (4.5 - 0) * (4.5 - 0) - ((0 - 0) * 0 + (0 - 0) * 0 + (4.5 - 0) * 1)
      * ((0 - 0) * 0 + (0 - 0) * 0 + (4.5 - 0) * 1))) = 1 := by
    norm_num
  simp only [Sphere.ray_intersect, exSphere2, exMaterial, exOrig, exDir,
    Vec3f.new, Vec3f.sub_def, Vec3f.dot, h1]
  norm_num

/-! ### Claim theorems -/

/-- C1. The claim states `reflect(v, n) = v − n × 2 × (v·n)`; the source's
`reflect` instead multiplies componentwise throughout and never subtracts,
so at `v = n = (1,0,0)` the code yields `(2,0,0)` while the claimed mirror
formula yields `(−1,0,0)`. -/
theorem reflect_neq_formula :
    reflect (Vec3f.new 1 0 0) (Vec3f.new 1 0 0) = Vec3f.new 2 0 0 ∧
    reflect_formula (Vec3f.new 1 0 0) (Vec3f.new 1 0 0) = Vec3f.new (-1) 0 0 ∧
    reflect (Vec3f.new 1 0 0) (Vec3f.new 1 0 0) ≠
      reflect_formula (Vec3f.new 1 0 0) (Vec3f.new 1 0 0) := by
  refine ⟨?_, ?_, ?_⟩
  · simp only [reflect, Vec3f.new, Vec3f.mul_def, Vec3f.smul_def, Vec3f.dot]
    norm_num
  · simp only [reflect_formula, Vec3f.new, Vec3f.sub_def, Vec3f.smul_def, Vec3f.dot]
    norm_num
  · simp only [reflect, reflect_formula, Vec3f.new, Vec3f.mul_def,
      Vec3f.smul_def, Vec3f.sub_def, Vec3f.dot, Vec3f.mk.injEq]
    norm_num

/-- C5. When the resolver reports no hit, `cast_ray` returns exactly the
background colour `(0.2, 0.7, 0.8)`, for every scene and light list; a miss
is not an error and always yields a colour. -/
theorem cast_ray_background (orig dir : Vec3f) (spheres : List Sphere)
    (lights : List Light) (h : scene_intersect orig dir spheres = none) :
    cast_ray orig dir spheres lights = Vec3f.new 0.2 0.7 0.8 := by
  simp only [cast_ray, h]

/-- Witness for C5: the empty scene misses every ray. -/
theorem cast_ray_background_witness :
    cast_ray exOrig exDir [] [exLight1] = Vec3f.new 0.2 0.7 0.8 :=
  cast_ray_background exOrig exDir [] [exLight1] rfl

/-- C7. Whenever `Sphere.ray_intersect` returns a distance, that distance
is non-negative. -/
theorem ray_intersect_nonneg (s : Sphere) (orig dir : Vec3f) (t : ℝ)
    (h : s.ray_intersect orig dir = some t) : 0 ≤ t := by
  simp only [Sphere.ray_intersect] at h
  split_ifs at h with h1 h2 h3 h4 h5
  all_goals injection h with h
  all_goals subst h
  all_goals push_neg at *
  all_goals first
    | exact h2 h3
    | linarith

/-- Witness for C7: a concrete intersection at distance 3. -/
theorem ray_intersect_nonneg_witness : (0 : ℝ) ≤ 3 :=
  ray_intersect_nonneg exSphere exOrig exDir 3 exSphere_ray_intersect

/-- C3. With `tca = L·dir`, `d² = L·L − tca²`, `thc = sqrt(r² − d²)`,
`t0 = tca − thc`, `t1 = tca + thc` as in §4.1, `ray_intersect` returns
none when `d² > r²`; otherwise none when both roots are negative, `t1`
when only `t0` is negative, `t0` when only `t1` is negative, and the
smaller root when both are non-negative. -/
theorem ray_intersect_cases (s : Sphere) (orig dir : Vec3f)
    (tca d2 thc t0 t1 : ℝ)
    (htca : tca = (s.center - orig).dot dir)
    (hd2 : d2 = (s.center - orig).dot (s.center - orig) - tca * tca)
    (hthc : thc = Real.sqrt (s.radius * s.radius - d2))
    (ht0 : t0 = tca - thc) (ht1 : t1 = tca + thc) :
    (d2 > s.radius * s.radius → s.ray_intersect orig dir = none) ∧
    (d2 ≤ s.radius * s.radius → t0 < 0 → t1 < 0 →
      s.ray_intersect orig dir = none) ∧
    (d2 ≤ s.radius * s.radius → t0 < 0 → 0 ≤ t1 →
      s.ray_intersect orig dir = some t1) ∧
    (d2 ≤ s.radius * s.radius → 0 ≤ t0 → t1 < 0 →
      s.ray_intersect orig dir = some t0) ∧
    (d2 ≤ s.radius * s.radius → 0 ≤ t0 → 0 ≤ t1 →
      s.ray_intersect orig dir = some (min t0 t1)) := by
  subst htca hd2 hthc ht0 ht1
  simp only [Sphere.ray_intersect]
  refine ⟨fun hgt => ?_, fun hle ha hb => ?_, fun hle ha hb => ?_,
    fun hle ha hb => ?_, fun hle ha hb => ?_⟩
  · rw [if_pos hgt]
  · rw [if_neg (by linarith), if_pos ⟨ha, hb⟩]
  · rw [if_neg (by linarith), if_neg (by push_neg; intro; linarith), if_pos ha]
  · rw [if_neg (by linarith), if_neg (by push_neg; intro; linarith),
      if_neg (by linarith), if_pos hb]
  · rw [if_neg (by linarith), if_neg (by push_neg; intro; linarith),
      if_neg (by linarith), if_neg (by linarith)]
    split
    · rename_i hlt
      rw [min_eq_left hlt.le]
    · rename_i hge
      rw [min_eq_right (not_lt.mp hge)]

/-- Witness for C3: the two-non-negative-roots case at a concrete sphere,
returning the smaller root `min 3 5 = 3`. -/
theorem ray_intersect_cases_witness :
    exSphere.ray_intersect exOrig exDir = some 3 := by
  have h := ray_intersect_cases exSphere exOrig exDir 4 0 1 3 5
    (by simp only [exSphere, exMaterial, exOrig, exDir, Vec3f.new,
      Vec3f.sub_def, Vec3f.dot]; norm_num)
    (by simp only [exSphere, exMaterial, exOrig, exDir, Vec3f.new,
      Vec3f.sub_def, Vec3f.dot]; norm_num)
    (by simp only [exSphere, exMaterial]; norm_num)
    (by norm_num) (by norm_num)
  have h5 := h.2.2.2.2 (by simp only [exSphere, exMaterial]; norm_num)
    (by norm_num) (by norm_num)
  rw [show ((3 : ℝ) ⊓ 5) = 3 from by norm_num] at h5
  exact h5

lemma foldlMin_cons {α : Type} (key : α → ℕ) (a b : α) (l : List α) :
    foldlMin key a (b :: l) = foldlMin key (if key b < key a then b else a) l := rfl

/-- The `min_by_key` reduction selects the first element attaining the
minimal key: everything before it has a strictly larger key, everything
after it a larger-or-equal key. -/
lemma foldlMin_decomp {α : Type} (key : α → ℕ) (l : List α) :
    ∀ a : α, ∃ l₁ l₂, a :: l = l₁ ++ foldlMin key a l :: l₂
      ∧ (∀ q ∈ l₁, key (foldlMin key a l) < key q)
      ∧ (∀ q ∈ l₂, key (foldlMin key a l) ≤ key q) := by
  induction l with
  | nil =>
    intro a
    exact ⟨[], [], by simp [foldlMin], by simp, by simp⟩
  | cons b t ih =>
    intro a
    rw [foldlMin_cons]
    by_cases hb : key b < key a
    · rw [if_pos hb]
      obtain ⟨l₁, l₂, hsplit, hlt, hle⟩ := ih b
      have hmb : key (foldlMin key b t) ≤ key b := by
        rcases l₁ with _ | ⟨p, rest⟩
        · rw [List.nil_append] at hsplit
          injection hsplit with h1 h2
          rw [← h1]
        · rw [List.cons_append] at hsplit
          injection hsplit with h1 h2
          have hp := hlt p (List.mem_cons_self p rest)
          rw [← h1] at hp
          exact hp.le
      refine ⟨a :: l₁, l₂, ?_, ?_, hle⟩
      · rw [List.cons_append, ← hsplit]
      · intro q hq
        rcases List.mem_cons.mp hq with rfl | hq
        · exact lt_of_le_of_lt hmb hb
        · exact hlt q hq
    · rw [if_neg hb]
      obtain ⟨l₁, l₂, hsplit, hlt, hle⟩ := ih a
      rcases l₁ with _ | ⟨p, rest⟩
      · rw [List.nil_append] at hsplit
        injection hsplit with h1 h2
        refine ⟨[], b :: t, ?_, by simp, ?_⟩
        · rw [List.nil_append, ← h1]
        · intro q hq
          rcases List.mem_cons.mp hq with rfl | hq
          · rw [← h1]
            exact not_lt.mp hb
          · rw [h2] at hq
            exact hle q hq
      · rw [List.cons_append] at hsplit
        injection hsplit with h1 h2
        have hma : key (foldlMin key a t) < key a := by
          have hp := hlt p (List.mem_cons_self p rest)
          rwa [← h1] at hp
        refine ⟨a :: b :: rest, l₂, ?_, ?_, hle⟩
        · rw [List.cons_append, List.cons_append, ← h2]
        · intro q hq
          rcases List.mem_cons.mp hq with rfl | hq
          · exact hma
          · rcases List.mem_cons.mp hq with rfl | hq
            · exact lt_of_lt_of_le hma (not_lt.mp hb)
            · exact hlt q (List.mem_cons_of_mem p hq)

/-- C2. The resolver's candidate list scans the spheres in scene order;
the selected candidate is the first one attaining the minimal truncated
(`as u32`, i.e. floor) distance: all candidates before it have a strictly
larger truncated distance and all after it a larger-or-equal one, so
quantized ties go to the sphere encountered first; the hit point and
normal are computed from the selected candidate's distance. -/
theorem scene_intersect_nearest (orig dir : Vec3f) (spheres : List Sphere) :
    (minByKey distanceKey (sceneCandidates orig dir spheres) = none →
      scene_intersect orig dir spheres = none ∧
        sceneCandidates orig dir spheres = []) ∧
    ∀ d s, minByKey distanceKey (sceneCandidates orig dir spheres) = some (d, s) →
      scene_intersect orig dir spheres =
        some (s, (orig + dir * d - s.center).normalize, orig + dir * d) ∧
      ∃ c₁ c₂, sceneCandidates orig dir spheres = c₁ ++ (d, s) :: c₂
        ∧ (∀ q ∈ c₁, ⌊d⌋₊ < ⌊q.1⌋₊)
        ∧ (∀ q ∈ c₂, ⌊d⌋₊ ≤ ⌊q.1⌋₊) := by
  constructor
  · intro hnone
    refine ⟨by simp only [scene_intersect, hnone], ?_⟩
    cases hc : sceneCandidates orig dir spheres with
    | nil => rfl
    | cons a l =>
      rw [hc] at hnone
      exact Option.noConfusion hnone
  · intro d s hsome
    refine ⟨by simp only [scene_intersect, hsome], ?_⟩
    cases hc : sceneCandidates orig dir spheres with
    | nil =>
      rw [hc] at hsome
      exact Option.noConfusion hsome
    | cons a l =>
      rw [hc] at hsome
      simp only [minByKey, Option.some.injEq] at hsome
      obtain ⟨c₁, c₂, hsplit, hlt, hle⟩ := foldlMin_decomp distanceKey l a
      rw [hsome] at hsplit hlt hle
      exact ⟨c₁, c₂, hsplit, fun q hq => hlt q hq, fun q hq => hle q hq⟩

lemma exCandidates :
    sceneCandidates exOrig exDir [exSphere, exSphere2] =
      [((3 : ℝ), exSphere), (3.5, exSphere2)] := by
  simp only [sceneCandidates, List.filterMap_cons, List.filterMap_nil,
    exSphere_ray_intersect, exSphere2_ray_intersect]

lemma exMinByKey :
    minByKey distanceKey [((3 : ℝ), exSphere), (3.5, exSphere2)] =
      some (3, exSphere) := by
  have h1 : (⌊(3.5 : ℝ)⌋₊ : ℕ) = 3 := by
    rw [Nat.floor_eq_iff (by norm_num)]
    norm_num
  have h2 : (⌊(3 : ℝ)⌋₊ : ℕ) = 3 := by
    rw [Nat.floor_eq_iff (by norm_num)]
    norm_num
  simp only [minByKey, foldlMin, List.foldl, distanceKey, h1, h2,
    lt_self_iff_false, if_false]

lemma foldl_pair_add {β : Type} (f g : β → ℝ) (l : List β) :
    ∀ a b : ℝ, l.foldl (fun acc x => (acc.1 + f x, acc.2 + g x)) (a, b)
      = (a + (l.map f).sum, b + (l.map g).sum) := by
  induction l with
  | nil =>
    intro a b
    simp
  | cons x t ih =>
    intro a b
    simp only [List.foldl_cons, List.map_cons, List.sum_cons]
    rw [ih]
    simp only [Prod.mk.injEq]
    constructor <;> ring

/-- The Phong light loop computes the per-light sums of the diffuse and
specular contributions. -/
lemma phongAccum_eq (n hit dir : Vec3f) (e : ℝ) (lights : List Light) :
    phongAccum n hit dir e lights =
      ((lights.map fun light =>
        light.intensity * max 0 (((light.position - hit).normalize).dot n)).sum,
       (lights.map fun light =>
        max 0 ((-reflect (-(light.position - hit).normalize) n).dot dir) ^ e
          * light.intensity).sum) := by
  have h := foldl_pair_add
    (fun light : Light =>
      light.intensity * max 0 (((light.position - hit).normalize).dot n))
    (fun light : Light =>
      max 0 ((-reflect (-(light.position - hit).normalize) n).dot dir) ^ e
        * light.intensity)
    lights 0 0
  simp only [zero_add] at h
  exact h

/-- Witness for C2: two spheres at exact distances 3 and 3.5 truncate to
the same key 3; the first one in scene order is selected. -/
theorem scene_intersect_nearest_witness :
    scene_intersect exOrig exDir [exSphere, exSphere2] =
      some (exSphere, (exOrig + exDir * (3 : ℝ) - exSphere.center).normalize,
        exOrig + exDir * (3 : ℝ)) :=
  ((scene_intersect_nearest exOrig exDir [exSphere, exSphere2]).2 3 exSphere
    (by rw [exCandidates]; exact exMinByKey)).1

lemma Vec3f.smul_smul (v : Vec3f) (a b : ℝ) : v * (a * b) = v * a * b := by
  simp only [Vec3f.smul_def, Vec3f.mk.injEq]
  refine ⟨?_, ?_, ?_⟩ <;> ring

/-- C4. On a hit, `cast_ray` computes exactly the specification's shading
formula: for each light, `light_dir = normalize(position − hit)`; diffuse
and specular contributions are summed over the lights and combined as
`diffuse_color × diffuse × albedo.0 + white × specular × albedo.1`,
with no clamping. -/
theorem cast_ray_shade (orig dir : Vec3f) (spheres : List Sphere)
    (lights : List Light) (sphere : Sphere) (n hit : Vec3f)
    (h : scene_intersect orig dir spheres = some (sphere, n, hit)) :
    cast_ray orig dir spheres lights =
      shade_formula dir sphere.material n hit lights := by
  have hmap : (lights.map fun light =>
      max 0 ((-reflect (-(light.position - hit).normalize) n).dot dir)
        ^ sphere.material.specular_exponent * light.intensity) =
    lights.map fun light =>
      light.intensity *
        max 0 ((-reflect (-(light.position - hit).normalize) n).dot dir)
          ^ sphere.material.specular_exponent :=
    List.map_congr_left fun light _ => mul_comm _ _
  simp only [cast_ray, h, shade_formula, phongAccum_eq, hmap, Vec3f.smul_smul]

/-- The example scene resolves the example ray to a hit on `exSphere` at
distance 3. -/
lemma exScene_intersect :
    scene_intersect exOrig exDir [exSphere] =
      some (exSphere, (exOrig + exDir * (3 : ℝ) - exSphere.center).normalize,
        exOrig + exDir * (3 : ℝ)) := by
  have hc : sceneCandidates exOrig exDir [exSphere] = [((3 : ℝ), exSphere)] := by
    simp only [sceneCandidates, List.filterMap_cons, List.filterMap_nil,
      exSphere_ray_intersect]
  simp only [scene_intersect, hc, minByKey, foldlMin, List.foldl]

/-- Witness for C4: the concrete hit on `exSphere` shades by the spec
formula under the two example lights. -/
theorem cast_ray_shade_witness :
    cast_ray exOrig exDir [exSphere] [exLight1, exLight2] =
      shade_formula exDir exSphere.material
        ((exOrig + exDir * (3 : ℝ) - exSphere.center).normalize)
        (exOrig + exDir * (3 : ℝ)) [exLight1, exLight2] :=
  cast_ray_shade exOrig exDir [exSphere] [exLight1, exLight2] exSphere
    ((exOrig + exDir * (3 : ℝ) - exSphere.center).normalize)
    (exOrig + exDir * (3 : ℝ)) exScene_intersect

/-- C8. The colour `cast_ray` returns is invariant under any permutation
of the light list, and the Phong accumulator over a two-light list is the
sum of the accumulators over the two single-light lists. -/
theorem cast_ray_lights_perm (orig dir : Vec3f) (spheres : List Sphere) :
    (∀ lights₁ lights₂ : List Light, lights₁.Perm lights₂ →
      cast_ray orig dir spheres lights₁ = cast_ray orig dir spheres lights₂) ∧
    (∀ (n hit : Vec3f) (e : ℝ) (l1 l2 : Light),
      phongAccum n hit dir e [l1, l2] =
        phongAccum n hit dir e [l1] + phongAccum n hit dir e [l2]) := by
  constructor
  · intro lights₁ lights₂ hperm
    cases hscene : scene_intersect orig dir spheres with
    | none => simp only [cast_ray, hscene]
    | some hitdata =>
      obtain ⟨sphere, n, hit⟩ := hitdata
      simp only [cast_ray, hscene, phongAccum_eq]
      rw [(hperm.map _).sum_eq, (hperm.map _).sum_eq]
  · intro n hit e l1 l2
    simp only [phongAccum_eq, List.map_cons, List.map_nil, List.sum_cons,
      List.sum_nil, Prod.mk_add_mk, Prod.mk.injEq]
    constructor <;> ring

/-- Witness for C8: swapping the two example lights (intensities 1.5 and
1.8) leaves the shaded colour unchanged. -/
theorem cast_ray_lights_perm_witness :
    cast_ray exOrig exDir [exSphere] [exLight1, exLight2] =
      cast_ray exOrig exDir [exSphere] [exLight2, exLight1] :=
  (cast_ray_lights_perm exOrig exDir [exSphere]).1 _ _
    (List.Perm.swap exLight2 exLight1 [])

/-- C9. The encoder clamps each channel to `[0,1]`, scales by 255 and
truncates to an 8-bit value: every encoded byte is at most 255; a pixel of
`(1,1,1)` encodes to `255,255,255`; a pixel of `(−1,0.5,2)` encodes to
`0,127,255`, the middle byte within one of 128. -/
theorem encode_roundtrip :
    (∀ z : ℝ, encodeChannel z ≤ 255) ∧
    encodePixel (Vec3f.new 1 1 1) = (255, 255, 255) ∧
    encodePixel (Vec3f.new (-1) 0.5 2) = (0, 127, 255) ∧
    128 - 1 ≤ 127 ∧ 127 ≤ 128 + 1 := by
  have hch1 : encodeChannel 1 = 255 := by
    rw [encodeChannel, show (255 : ℝ) * max 0 (min 1 (1 : ℝ)) = 255 by
      norm_num [min_def, max_def]]
    simp [Nat.floor_ofNat]
  have hchneg : encodeChannel (-1) = 0 := by
    rw [encodeChannel, show (255 : ℝ) * max 0 (min 1 (-1 : ℝ)) = 0 by
      norm_num [min_def, max_def]]
    simp
  have hchhalf : encodeChannel 0.5 = 127 := by
    rw [encodeChannel, show (255 : ℝ) * max 0 (min 1 (0.5 : ℝ)) = 127.5 by
      norm_num [min_def, max_def]]
    have : (⌊(127.5 : ℝ)⌋₊ : ℕ) = 127 := by
      rw [Nat.floor_eq_iff (by norm_num)]
      norm_num
    rw [this]
    omega
  have hch2 : encodeChannel 2 = 255 := by
    rw [encodeChannel, show (255 : ℝ) * max 0 (min 1 (2 : ℝ)) = 255 by
      norm_num [min_def, max_def]]
    simp [Nat.floor_ofNat]
  refine ⟨fun z => min_le_right _ _, ?_, ?_, by norm_num, by norm_num⟩
  · simp only [encodePixel, Vec3f.new, hch1]
  · simp only [encodePixel, Vec3f.new, hchneg, hchhalf, hch2]

lemma foldl_set_length {α β : Type} (idx : β → ℕ) (val : β → α) (l : List β) :
    ∀ fb : List α,
      (l.foldl (fun fb b => fb.set (idx b) (val b)) fb).length = fb.length := by
  induction l with
  | nil =>
    intro fb
    rfl
  | cons b t ih =>
    intro fb
    simp only [List.foldl_cons]
    rw [ih, List.length_set]

lemma foldl_set_getElem_ne {α β : Type} (idx : β → ℕ) (val : β → α) (k : ℕ)
    (l : List β) : ∀ fb : List α, (∀ b ∈ l, idx b ≠ k) →
      (l.foldl (fun fb b => fb.set (idx b) (val b)) fb)[k]? = fb[k]? := by
  induction l with
  | nil =>
    intro fb _
    rfl
  | cons b t ih =>
    intro fb h
    simp only [List.foldl_cons]
    rw [ih _ fun q hq => h q (List.mem_cons_of_mem b hq)]
    exact List.getElem?_set_ne (h b (List.mem_cons_self b t))

/-- A single pass writing `g k` at index `k + c` for every `k < n` leaves
`g i` readable at index `i + c`. -/
lemma foldl_range_set_getElem {α : Type} (g : ℕ → α) (c : ℕ) :
    ∀ (n : ℕ) (fb : List α) (i : ℕ), i < n → i + c < fb.length →
      ((List.range n).foldl (fun fb k => fb.set (k + c) (g k)) fb)[i + c]? =
        some (g i) := by
  intro n
  induction n with
  | zero =>
    intro fb i hi _
    exact absurd hi (Nat.not_lt_zero i)
  | succ n ih =>
    intro fb i hi hlen
    rw [List.range_succ, List.foldl_append]
    simp only [List.foldl_cons, List.foldl_nil]
    rcases Nat.lt_succ_iff_lt_or_eq.mp hi with hlt | rfl
    · rw [List.getElem?_set_ne (by omega)]
      exact ih fb i hlt hlen
    · have hL := foldl_set_length (fun k => k + c) g (List.range i) fb
      rw [List.getElem?_set_self (by rw [hL]; exact hlen)]

/-- The nested frame loop preserves the framebuffer length. -/
lemma outer_loop_length {α : Type} (g : ℕ → ℕ → α) (W : ℕ) (m : ℕ) :
    ∀ fb : List α,
      ((List.range m).foldl (fun fb j => (List.range W).foldl
        (fun fb i => fb.set (i + j * W) (g i j)) fb) fb).length = fb.length := by
  induction m with
  | zero =>
    intro fb
    rfl
  | succ m ih =>
    intro fb
    rw [List.range_succ, List.foldl_append]
    simp only [List.foldl_cons, List.foldl_nil]
    exact (foldl_set_length (fun i => i + m * W) (fun i => g i m)
      (List.range W) _).trans (ih fb)

/-- The nested frame loop leaves the value of pixel `(i, j)` readable at
index `i + j * W`: later rows write only strictly larger indices. -/
lemma outer_loop_getElem {α : Type} (g : ℕ → ℕ → α) (W : ℕ) :
    ∀ (m : ℕ) (fb : List α) (i j : ℕ), i < W → j < m → i + j * W < fb.length →
      ((List.range m).foldl (fun fb j => (List.range W).foldl
        (fun fb i => fb.set (i + j * W) (g i j)) fb) fb)[i + j * W]? =
        some (g i j) := by
  intro m
  induction m with
  | zero =>
    intro fb i j _ hj _
    exact absurd hj (Nat.not_lt_zero j)
  | succ m ih =>
    intro fb i j hi hj hlen
    rw [List.range_succ, List.foldl_append]
    simp only [List.foldl_cons, List.foldl_nil]
    rcases Nat.lt_succ_iff_lt_or_eq.mp hj with hlt | heq
    · have hne : ∀ k ∈ List.range W, k + m * W ≠ i + j * W := by
        intro k hk
        have hkW : k < W := List.mem_range.mp hk
        have h1 : j * W + W ≤ m * W := by
          calc j * W + W = (j + 1) * W := by ring
          _ ≤ m * W := Nat.mul_le_mul_right W hlt
        omega
      have h1 := foldl_set_getElem_ne (fun k => k + m * W) (fun k => g k m)
        (i + j * W) (List.range W)
        ((List.range m).foldl (fun fb j => (List.range W).foldl
          (fun fb i => fb.set (i + j * W) (g i j)) fb) fb) hne
      exact h1.trans (ih fb i j hi hlt hlen)
    · subst heq
      have hL := outer_loop_length g W j fb
      exact foldl_range_set_getElem (fun k => g k j) (j * W) W _ i hi
        (hL.symm ▸ hlen)

lemma pixelDir_eq (i j : ℕ) :
    pixelDir i j =
      (Vec3f.new
        ((2 * ((i : ℝ) + 0.5) / (WIDTH : ℝ) - 1) * Real.tan (FOV / 2)
          * ((WIDTH : ℝ) / (HEIGHT : ℝ)))
        (-(2 * ((j : ℝ) + 0.5) / (HEIGHT : ℝ) - 1) * Real.tan (FOV / 2))
        (-1)).normalize := by
  simp only [pixelDir]
  rw [mul_div_assoc]

/-- C6. For a pixel `(i, j)` inside the image, the framebuffer entry at
index `i + j × WIDTH` is the colour cast from the origin `(0,0,0)` along
`normalize (x, y, −1)` with `x = (2(i+0.5)/W − 1) · tan(fov/2) · (W/H)` and
`y = −(2(j+0.5)/H − 1) · tan(fov/2)`. -/
theorem render_pixel (spheres : List Sphere) (lights : List Light) (i j : ℕ)
    (hi : i < WIDTH) (hj : j < HEIGHT) :
    (renderFramebuffer spheres lights)[i + j * WIDTH]? =
      some (cast_ray (Vec3f.new 0 0 0)
        ((Vec3f.new
          ((2 * ((i : ℝ) + 0.5) / (WIDTH : ℝ) - 1) * Real.tan (FOV / 2)
            * ((WIDTH : ℝ) / (HEIGHT : ℝ)))
          (-(2 * ((j : ℝ) + 0.5) / (HEIGHT : ℝ) - 1) * Real.tan (FOV / 2))
          (-1)).normalize)
        spheres lights) := by
  have h := outer_loop_getElem
    (fun i j => cast_ray (Vec3f.new 0 0 0) (pixelDir i j) spheres lights)
    WIDTH HEIGHT (List.replicate (WIDTH * HEIGHT) (Vec3f.new 0 0 0)) i j hi hj
    (by
      rw [List.length_replicate]
      simp only [WIDTH, HEIGHT] at hi hj ⊢
      omega)
  simp only [] at h
  rw [pixelDir_eq i j] at h
  exact h

/-- Witness for C6: the top-left pixel `(0, 0)`. -/
theorem render_pixel_witness :
    (renderFramebuffer [] [])[0 + 0 * WIDTH]? =
      some (cast_ray (Vec3f.new 0 0 0)
        ((Vec3f.new
          ((2 * (((0 : ℕ) : ℝ) + 0.5) / (WIDTH : ℝ) - 1) * Real.tan (FOV / 2)
            * ((WIDTH : ℝ) / (HEIGHT : ℝ)))
          (-(2 * (((0 : ℕ) : ℝ) + 0.5) / (HEIGHT : ℝ) - 1) * Real.tan (FOV / 2))
          (-1)).normalize)
        [] []) :=
  render_pixel [] [] 0 0 (by norm_num [WIDTH]) (by norm_num [HEIGHT])

/-- C10. Inside the image, the framebuffer index `i + j × WIDTH` is below
`WIDTH × HEIGHT`; the framebuffer is allocated with exactly
`WIDTH × HEIGHT` entries and the frame loop preserves that length, so
every write of the frame loop is in bounds. -/
theorem render_index_in_bounds (spheres : List Sphere) (lights : List Light)
    (i j : ℕ) (hi : i < WIDTH) (hj : j < HEIGHT) :
    i + j * WIDTH < WIDTH * HEIGHT ∧
    (List.replicate (WIDTH * HEIGHT) (Vec3f.new 0 0 0)).length =
      WIDTH * HEIGHT ∧
    (renderFramebuffer spheres lights).length = WIDTH * HEIGHT := by
  refine ⟨?_, List.length_replicate .., ?_⟩
  · simp only [WIDTH, HEIGHT] at hi hj ⊢
    omega
  · have h := outer_loop_length
      (fun i j => cast_ray (Vec3f.new 0 0 0) (pixelDir i j) spheres lights)
      WIDTH HEIGHT (List.replicate (WIDTH * HEIGHT) (Vec3f.new 0 0 0))
    rw [List.length_replicate] at h
    exact h

/-- Witness for C10: pixel `(0, 0)` of the empty scene. -/
theorem render_index_in_bounds_witness :
    0 + 0 * WIDTH < WIDTH * HEIGHT ∧
    (List.replicate (WIDTH * HEIGHT) (Vec3f.new 0 0 0)).length =
      WIDTH * HEIGHT ∧
    (renderFramebuffer [] []).length = WIDTH * HEIGHT :=
  render_index_in_bounds [] [] 0 0 (by norm_num [WIDTH]) (by norm_num [HEIGHT])
